import Mathlib

/-!
Verification development for the `my-proxy-server` repository
(`src/proxy-server.ts`): a shallow embedding of the blacklist rule
compiler (`buildRuleFromLine`, `loadLists`), the rule evaluator used by
the HTTP access-control middleware and by the CONNECT handler, and the
byte sequences the CONNECT handler writes to the client socket, together
with theorems settling the specification's claims about them.

JavaScript strings are modelled as Lean `String` values; the JS string
methods used by the source (`includes`, `startsWith`, `endsWith`,
`trim`, `toLowerCase`, `slice`, `indexOf`, `split`) are embedded as
list-level functions on `String.data` so that every definition is
executable by kernel reduction.
-/

namespace MyProxy

/-! ### Embedded JavaScript string primitives -/

/-- JS `s.startsWith(t)`: `t` is a literal character-prefix of `s`. -/
def jsStartsWith (s t : String) : Bool :=
  t.data.isPrefixOf s.data

/-- JS `s.endsWith(t)`: `t` is a literal character-suffix of `s`. -/
def jsEndsWith (s t : String) : Bool :=
  t.data.isSuffixOf s.data

/-- Occurrence of `needle` as a contiguous sub-sequence of `hay`. -/
def containsSub (needle : List Char) : List Char → Bool
  | [] => needle.isEmpty
  | c :: rest => needle.isPrefixOf (c :: rest) || containsSub needle rest

/-- JS `s.includes(t)`. -/
def jsIncludes (s t : String) : Bool :=
  containsSub t.data s.data

/-- JS `s.toLowerCase()` (per-character lowering). -/
def jsToLower (s : String) : String :=
  ⟨s.data.map Char.toLower⟩

/-- Strip leading and trailing whitespace from a character list. -/
def trimChars (cs : List Char) : List Char :=
  (((cs.dropWhile Char.isWhitespace).reverse).dropWhile Char.isWhitespace).reverse

/-- JS `s.trim()`. -/
def jsTrim (s : String) : String :=
  ⟨trimChars s.data⟩

/-- JS `s.indexOf(c)` for a single character, `none` standing for `-1`. -/
def jsIndexOfChar (s : String) (c : Char) : Option Nat :=
  List.indexOf? c s.data

/-- JS `s.slice(i)`. -/
def jsSliceFrom (s : String) (i : Nat) : String :=
  ⟨s.data.drop i⟩

/-- JS `s.slice(0, i)`. -/
def jsSliceTo (s : String) (i : Nat) : String :=
  ⟨s.data.take i⟩

/-- JS `s.slice(0, -1)`: drop the last character. -/
def jsDropLast (s : String) : String :=
  ⟨s.data.dropLast⟩

/-- JS `text.split(/\r?\n/)` at the character-list level: split at every
`'\n'`, consuming one `'\r'` immediately before it when present. -/
def splitLinesChars : List Char → List (List Char)
  | [] => [[]]
  | '\r' :: '\n' :: rest => [] :: splitLinesChars rest
  | '\n' :: rest => [] :: splitLinesChars rest
  | c :: rest =>
    match splitLinesChars rest with
    | [] => [[c]]
    | l :: ls => (c :: l) :: ls

/-- JS `text.split(/\r?\n/)`. -/
def splitLines (text : String) : List String :=
  (splitLinesChars text.data).map (fun cs => ⟨cs⟩)

/-! ### Rule data model (`RuleKind`, `BlacklistRule`) -/

/-- The `RuleKind` union type of `src/proxy-server.ts`. -/
inductive RuleKind where
  | hostSubstring
  | hostExactPath
  | hostSubtreePath
  | subdomain
deriving DecidableEq, Repr

/-- The `BlacklistRule` interface: raw source line, kind, lowercased host
portion, optional path, and the `test(hostLower, pathPart)` closure.
A JS exception thrown by `test` is modelled as `Except.error`. -/
structure BlacklistRule where
  raw : String
  kind : RuleKind
  host : String
  path : Option String := none
  test : String → String → Except String Bool

/-- Body of the `test` closure of a subdomain rule (`*.host`). -/
def subdomainTest (host hostLower : String) : Bool :=
  if hostLower == host then false else jsEndsWith hostLower ("." ++ host)

/-- Body of the `test` closure of a host-subtree-path rule (`host/path*`). -/
def subtreeTest (hostPart pfx hostLower requestPath : String) : Bool :=
  hostLower == hostPart && jsStartsWith requestPath pfx

/-- Body of the `test` closure of a host-exact-path rule (`host/path`). -/
def exactTest (hostPart pathPart hostLower requestPath : String) : Bool :=
  hostLower == hostPart && requestPath == pathPart

/-- Body of the `test` closure of a host-substring rule. -/
def substrTest (needle hostLower : String) : Bool :=
  jsIncludes hostLower needle

/-- `buildRuleFromLine` of `src/proxy-server.ts`. -/
def buildRuleFromLine (line : String) : Option BlacklistRule :=
  let raw := jsTrim line
  if raw == "" then none
  else if jsStartsWith raw "*." then
    let host := jsToLower (jsSliceFrom raw 2)
    some { raw, kind := RuleKind.subdomain, host,
           test := fun hostLower _ => Except.ok (subdomainTest host hostLower) }
  else
    match jsIndexOfChar raw '/' with
    | some slashIndex =>
      let hostPart := jsToLower (jsSliceTo raw slashIndex)
      let pathPart := jsSliceFrom raw slashIndex
      if jsEndsWith pathPart "*" then
        let pfx := jsDropLast pathPart
        some { raw, kind := RuleKind.hostSubtreePath, host := hostPart, path := some pfx,
               test := fun hostLower requestPath =>
                 Except.ok (subtreeTest hostPart pfx hostLower requestPath) }
      else
        some { raw, kind := RuleKind.hostExactPath, host := hostPart, path := some pathPart,
               test := fun hostLower requestPath =>
                 Except.ok (exactTest hostPart pathPart hostLower requestPath) }
    | none =>
      let hostNeedle := jsToLower raw
      some { raw, kind := RuleKind.hostSubstring, host := hostNeedle,
             test := fun hostLower _ => Except.ok (substrTest hostNeedle hostLower) }

/-- Body of the `for` loop of `loadLists`: build the rule for one line
and push it when non-null. -/
def pushRule (rules : List BlacklistRule) (line : String) : List BlacklistRule :=
  match buildRuleFromLine line with
  | some rule => rules ++ [rule]
  | none => rules

/-- The pure core of `loadLists`: from the text of `blacklist.txt` to the
compiled rule list (split on `\r?\n`, trim, drop blanks and `#` comments,
build each rule, pushing only non-null results in order). -/
def loadLists (fileText : String) : List BlacklistRule :=
  let lines := (((splitLines fileText).map jsTrim).filter
      (fun l => !(l == ""))).filter (fun l => !(jsStartsWith l "#"))
  lines.foldl pushRule []

/-! ### Evaluator (access-control middleware loop and CONNECT loop) -/

/-- Transport mode under which rules are evaluated. -/
inductive Mode where
  | http
  | tunnel
deriving DecidableEq, Repr

/-- Whether a rule is consulted at all in the given mode: the CONNECT
handler skips path-based rules, the HTTP middleware consults every rule. -/
def eligible (m : Mode) (r : BlacklistRule) : Bool :=
  match m with
  | Mode.http => true
  | Mode.tunnel => !(r.kind == RuleKind.hostExactPath || r.kind == RuleKind.hostSubtreePath)

/-- The shared shape of both rule loops: walk the snapshot in order; skip
ineligible rules; run `test` inside try/catch — a thrown exception
(`Except.error`) is logged and the loop continues; return the first rule
whose test yields `true`. -/
def evalRules (m : Mode) : List BlacklistRule → String → String → Option BlacklistRule
  | [], _, _ => none
  | r :: rest, hostLower, pathPart =>
    if eligible m r then
      match r.test hostLower pathPart with
      | Except.ok true => some r
      | _ => evalRules m rest hostLower pathPart
    else evalRules m rest hostLower pathPart

/-- Boolean "this rule matches and does not throw" predicate, used to
phrase first-match-wins. -/
def matchesB (hostLower pathPart : String) (r : BlacklistRule) : Bool :=
  match r.test hostLower pathPart with
  | Except.ok true => true
  | _ => false

/-- Result of the HTTP access-control middleware. -/
inductive HttpOutcome where
  | missingHost
  | blocked (rule : BlacklistRule)
  | forward (targetHostRaw targetHostLower : String)

/-- The access-control middleware: lowercase the raw Host header, reject
an empty one with 400, otherwise evaluate all rules in order against
(lowercased header, request path). -/
def accessControl (rules : List BlacklistRule) (hostHeaderRaw reqPath : String) : HttpOutcome :=
  let hostHeaderLower := jsToLower hostHeaderRaw
  if hostHeaderLower == "" then HttpOutcome.missingHost
  else
    match evalRules Mode.http rules hostHeaderLower reqPath with
    | some r => HttpOutcome.blocked r
    | none => HttpOutcome.forward hostHeaderRaw hostHeaderLower

/-! ### CONNECT handler wire actions -/

/-- An observable action the CONNECT handler performs on the client
socket: writing a byte sequence, `end()`, or `destroy()`. -/
inductive ClientAction where
  | write (bytes : String)
  | endConn
  | destroy
deriving DecidableEq, Repr

/-- The blacklist decision the CONNECT handler takes for a target host:
the tunnel-mode evaluation with an empty path argument. -/
def connectDecision (rules : List BlacklistRule) (targetHostLower : String) :
    Option BlacklistRule :=
  evalRules Mode.tunnel rules targetHostLower ""

/-- Actions on a blocked CONNECT: write the literal 403 and destroy. -/
def connectBlockedActions : List ClientAction :=
  [ClientAction.write "HTTP/1.1 403 Forbidden\r\n\r\n", ClientAction.destroy]

/-- Actions in the `net.connect` success callback (before piping). -/
def tunnelEstablishedActions : List ClientAction :=
  [ClientAction.write "HTTP/1.1 200 Connection Established\r\n\r\n"]

/-- Actions of `serverSocket.on('error', ...)`: the outbound connection
attempt errored; the handler only calls `clientSocket.end()`. -/
def outboundErrorActions : List ClientAction :=
  [ClientAction.endConn]

/-- Actions of the CONNECT handler's outer `catch` block: write the
literal 502 and destroy. -/
def tunnelCatchActions : List ClientAction :=
  [ClientAction.write "HTTP/1.1 502 Bad Gateway\r\n\r\n", ClientAction.destroy]

/-! ### Helper lemmas -/

theorem evalRules_eq_find (m : Mode) (rules : List BlacklistRule) (hl p : String) :
    evalRules m rules hl p = (rules.filter (eligible m)).find? (matchesB hl p) := by
  induction rules with
  | nil => rfl
  | cons r rest ih =>
    simp only [evalRules]
    by_cases he : eligible m r
    · rw [if_pos he, List.filter_cons_of_pos he]
      cases hm : r.test hl p with
      | ok b =>
        cases b with
        | true =>
          rw [List.find?_cons_of_pos _ (by simp [matchesB, hm])]
        | false =>
          rw [List.find?_cons_of_neg _ (by simp [matchesB, hm]), ih]
      | error e =>
        rw [List.find?_cons_of_neg _ (by simp [matchesB, hm]), ih]
    · rw [if_neg he, List.filter_cons_of_neg he, ih]

theorem evalRules_error_skip (m : Mode) (r : BlacklistRule)
    (pre post : List BlacklistRule) (hl p msg : String)
    (hfault : r.test hl p = Except.error msg) :
    evalRules m (pre ++ r :: post) hl p = evalRules m (pre ++ post) hl p := by
  induction pre with
  | nil =>
    simp only [List.nil_append, evalRules, hfault]
    split <;> rfl
  | cons q qs ih =>
    simp only [List.cons_append, evalRules, List.append_eq, ih]

theorem evalRules_filter_eligible (m : Mode) (rules : List BlacklistRule) (hl p : String) :
    evalRules m (rules.filter (eligible m)) hl p = evalRules m rules hl p := by
  induction rules with
  | nil => rfl
  | cons r rest ih =>
    by_cases he : eligible m r
    · rw [List.filter_cons_of_pos he]
      simp only [evalRules, if_pos he, ih]
    · rw [List.filter_cons_of_neg he]
      simp only [evalRules, if_neg he, ih]

theorem eligible_tunnel_false_of_path (r : BlacklistRule)
    (h : r.kind = RuleKind.hostExactPath ∨ r.kind = RuleKind.hostSubtreePath) :
    eligible Mode.tunnel r = false := by
  rcases h with h | h <;> simp [eligible, h]

theorem dropWhile_dropWhile_same (p : α → Bool) (l : List α) :
    (l.dropWhile p).dropWhile p = l.dropWhile p := by
  induction l with
  | nil => rfl
  | cons a t ih =>
    by_cases h : p a
    · rw [List.dropWhile_cons_of_pos h]
      exact ih
    · rw [List.dropWhile_cons_of_neg h, List.dropWhile_cons_of_neg h]

theorem dropWhile_eq_self_of_head_false (p : α → Bool) (l : List α)
    (h : ∀ hne : l ≠ [], p (l.head hne) = false) : l.dropWhile p = l := by
  cases l with
  | nil => rfl
  | cons a t =>
    have ha := h (by simp)
    simp only [List.head_cons] at ha
    exact List.dropWhile_cons_of_neg (by simp [ha])

theorem trimChars_idem (cs : List Char) : trimChars (trimChars cs) = trimChars cs := by
  unfold trimChars
  have hBA : ((cs.dropWhile Char.isWhitespace).reverse.dropWhile Char.isWhitespace)
      <:+ (cs.dropWhile Char.isWhitespace).reverse := List.dropWhile_suffix _
  have h1 : (((cs.dropWhile Char.isWhitespace).reverse.dropWhile
      Char.isWhitespace).reverse).dropWhile Char.isWhitespace =
      ((cs.dropWhile Char.isWhitespace).reverse.dropWhile Char.isWhitespace).reverse := by
    apply dropWhile_eq_self_of_head_false
    intro hne
    have hBne : (cs.dropWhile Char.isWhitespace).reverse.dropWhile Char.isWhitespace ≠ [] :=
      List.reverse_ne_nil_iff.mp hne
    have hAne : (cs.dropWhile Char.isWhitespace).reverse ≠ [] :=
      List.IsSuffix.ne_nil hBA hBne
    rw [List.head_reverse, List.IsSuffix.getLast hBA hBne, List.getLast_reverse]
    exact List.head_dropWhile_not Char.isWhitespace cs _
  rw [h1, List.reverse_reverse, dropWhile_dropWhile_same]

theorem jsTrim_idem (s : String) : jsTrim (jsTrim s) = jsTrim s :=
  congrArg String.mk (trimChars_idem s.data)

theorem buildRuleFromLine_isSome (line : String) (h : ¬ jsTrim line = "") :
    (buildRuleFromLine line).isSome = true := by
  unfold buildRuleFromLine
  have h' : (jsTrim line == "") = false := beq_eq_false_iff_ne.mpr h
  rw [if_neg (by simp [h'])]
  split
  · rfl
  · split
    · dsimp only
      split <;> rfl
    · rfl

theorem foldl_pushRule_eq_filterMap (l : List String) (acc : List BlacklistRule) :
    l.foldl pushRule acc = acc ++ l.filterMap buildRuleFromLine := by
  induction l generalizing acc with
  | nil => simp
  | cons a t ih =>
    cases hf : buildRuleFromLine a with
    | some r => simp [pushRule, hf, ih]
    | none => simp [pushRule, hf, ih]

theorem length_filterMap_of_isSome (f : α → Option β) (l : List α)
    (h : ∀ x ∈ l, (f x).isSome = true) : (l.filterMap f).length = l.length := by
  induction l with
  | nil => rfl
  | cons a t ih =>
    obtain ⟨b, hb⟩ := Option.isSome_iff_exists.mp (h a (List.mem_cons_self a t))
    rw [List.filterMap_cons_some hb]
    simp only [List.length_cons]
    rw [ih (fun x hx => h x (List.mem_cons_of_mem a hx))]

theorem header_with_port_ne_host (host hn port : String)
    (hcolon : ':' ∉ host.data) : ((hn ++ ":" ++ port) == host) = false := by
  apply beq_eq_false_iff_ne.mpr
  intro he
  apply hcolon
  rw [← he, String.data_append, String.data_append]
  simp

theorem subdomain_endsWith_port_false (host hn port : String)
    (hdigit : ∀ c ∈ port.data, c.isDigit = true)
    (hcolon : ':' ∉ host.data) :
    jsEndsWith (hn ++ ":" ++ port) ("." ++ host) = false := by
  apply Bool.eq_false_iff.mpr
  intro hend
  unfold jsEndsWith at hend
  rw [List.isSuffixOf_iff_suffix, String.data_append, String.data_append,
    String.data_append] at hend
  rw [show (("." : String)).data = ['.'] from rfl,
    show ((":" : String)).data = [':'] from rfl, List.append_assoc] at hend
  have hsuf2 : ([':'] ++ port.data) <:+ (hn.data ++ ([':'] ++ port.data)) :=
    List.suffix_append hn.data ([':'] ++ port.data)
  rcases List.suffix_or_suffix_of_suffix hend hsuf2 with hc | hc
  · have hmem : '.' ∈ [':'] ++ port.data := hc.mem (by simp)
    rcases List.mem_append.mp hmem with h1 | h1
    · simp at h1
    · have := hdigit '.' h1
      simp at this
  · have hmem : ':' ∈ ['.'] ++ host.data := hc.mem (by simp)
    rcases List.mem_append.mp hmem with h1 | h1
    · simp at h1
    · exact hcolon h1

/-! ### Claim theorems -/

/-- Claim C1 (code evaluated at the failing input): the configuration
line `regex:(unclosed` is not skipped by `buildRuleFromLine`; it is
compiled into a `host-substring` rule whose needle is the whole line
(there is no regex rule kind at all), it matches any host containing
that literal text, and a file holding it alongside one good line
compiles to 2 rules, not 1. -/
theorem regex_line_compiled_as_substring_rule :
    (∃ r, buildRuleFromLine "regex:(unclosed" = some r ∧
      r.kind = RuleKind.hostSubstring ∧ r.host = "regex:(unclosed" ∧
      r.test "regex:(unclosed.evil.com" "/" = Except.ok true) ∧
    (loadLists "good.com\nregex:(unclosed\n").length = 2 :=
  ⟨⟨_, rfl, rfl, rfl, rfl⟩, rfl⟩

/-- Claim C2, counterexample: a CONNECT allowed by the evaluator (empty
rule set, host `example.com`) whose outbound connection attempt errors
does not receive the literal 502 byte sequence — the error handler of
`serverSocket` performs no write at all. -/
theorem connect_502_counterexample :
    connectDecision [] "example.com" = none ∧
    ClientAction.write "HTTP/1.1 502 Bad Gateway\r\n\r\n" ∉ outboundErrorActions :=
  ⟨rfl, by decide⟩

/-- Claim C2, amended: when the outbound connection attempt for an
allowed CONNECT tunnel errors, the handler only calls
`clientSocket.end()` — no bytes (in particular no 502 status line) are
written to the client; the literal
`HTTP/1.1 502 Bad Gateway\r\n\r\n` followed by destruction of the client
socket is produced only by the handler's outer catch block (a synchronous
failure while setting up the tunnel), with no retry in either case. -/
theorem connect_outbound_error_ends_without_response :
    outboundErrorActions = [ClientAction.endConn] ∧
    (∀ bytes : String, ClientAction.write bytes ∉ outboundErrorActions) ∧
    tunnelCatchActions =
      [ClientAction.write "HTTP/1.1 502 Bad Gateway\r\n\r\n", ClientAction.destroy] := by
  refine ⟨rfl, ?_, rfl⟩
  intro bytes
  simp [outboundErrorActions]

/-- Claim C5: the rule compiled from `host/path*` is a HostSubtreePath
rule with host `host` and stored path `/path`; it matches exactly when
the request host equals the rule's host and the rule's `/path` is a
literal character-prefix of the request path — so `/path`,
`/path/anything`, and also `/pathx` and `/pathological` match (matching
is not path-segment-aware), while a different host does not match. -/
theorem subtree_rule_matches_literal_path_start :
    ∃ r, buildRuleFromLine "host/path*" = some r ∧
      r.kind = RuleKind.hostSubtreePath ∧ r.host = "host" ∧ r.path = some "/path" ∧
      (∀ hostLower requestPath, r.test hostLower requestPath =
        Except.ok (hostLower == "host" && "/path".data.isPrefixOf requestPath.data)) ∧
      r.test "host" "/path" = Except.ok true ∧
      r.test "host" "/path/anything" = Except.ok true ∧
      r.test "host" "/pathx" = Except.ok true ∧
      r.test "host" "/pathological" = Except.ok true ∧
      r.test "otherhost" "/path" = Except.ok false :=
  ⟨_, rfl, rfl, rfl, rfl, fun _ _ => rfl, rfl, rfl, rfl, rfl, rfl⟩

/-- Claim C6: the rule compiled from `*.example.com` is a Subdomain rule
with suffix host `example.com`; it matches a host exactly when the host
ends with `.` followed by the suffix and is not the suffix itself — so
`a.example.com` and `a.b.example.com` match but `example.com` does not. -/
theorem subdomain_rule_matches_proper_subdomains :
    ∃ r, buildRuleFromLine "*.example.com" = some r ∧
      r.kind = RuleKind.subdomain ∧ r.host = "example.com" ∧
      (∀ hostLower pathPart, r.test hostLower pathPart =
        Except.ok (jsEndsWith hostLower ".example.com" && !(hostLower == "example.com"))) ∧
      r.test "a.example.com" "" = Except.ok true ∧
      r.test "a.b.example.com" "" = Except.ok true ∧
      r.test "example.com" "" = Except.ok false := by
  refine ⟨_, rfl, rfl, rfl, ?_, rfl, rfl, rfl⟩
  intro hostLower pathPart
  show Except.ok (subdomainTest "example.com" hostLower) = _
  unfold subdomainTest
  by_cases h : hostLower == "example.com"
  · rw [if_pos h, h]
    simp
  · rw [if_neg h]
    have hb : (hostLower == "example.com") = false := by
      exact Bool.not_eq_true _ ▸ (by simpa using h)
    rw [hb]
    show Except.ok (jsEndsWith hostLower ("." ++ "example.com")) = _
    rw [show ("." ++ "example.com" : String) = ".example.com" from rfl]
    simp

/-- Claim C8: for every configuration text, the compiled snapshot is
exactly the in-order `filterMap` of `buildRuleFromLine` over the
trimmed, non-blank, non-`#` lines (blank and comment lines dropped
silently, source order kept), and its rule count equals the number of
trimmed lines that are non-blank, are not comments, and compile to a
rule (no current rule form faults, so that last condition excludes
nothing). -/
theorem compiled_rules_count_and_order (fileText : String) :
    loadLists fileText =
      ((((splitLines fileText).map jsTrim).filter (fun l => !(l == ""))).filter
        (fun l => !(jsStartsWith l "#"))).filterMap buildRuleFromLine ∧
    (loadLists fileText).length =
      (((splitLines fileText).map jsTrim).filter (fun l =>
        !(l == "") && (!(jsStartsWith l "#") && (buildRuleFromLine l).isSome))).length := by
  have hmain : loadLists fileText =
      ((((splitLines fileText).map jsTrim).filter (fun l => !(l == ""))).filter
        (fun l => !(jsStartsWith l "#"))).filterMap buildRuleFromLine := by
    have h0 := foldl_pushRule_eq_filterMap
      ((((splitLines fileText).map jsTrim).filter (fun l => !(l == ""))).filter
        (fun l => !(jsStartsWith l "#"))) []
    rw [List.nil_append] at h0
    exact h0
  refine ⟨hmain, ?_⟩
  rw [hmain]
  have hsome : ∀ l ∈ (((splitLines fileText).map jsTrim).filter
      (fun l => !(l == ""))).filter (fun l => !(jsStartsWith l "#")),
      (buildRuleFromLine l).isSome = true := by
    intro l hl
    rw [List.mem_filter] at hl
    obtain ⟨hl2, _⟩ := hl
    rw [List.mem_filter] at hl2
    obtain ⟨hl3, hE⟩ := hl2
    obtain ⟨t, _, rfl⟩ := List.mem_map.mp hl3
    apply buildRuleFromLine_isSome
    rw [jsTrim_idem]
    simpa using hE
  rw [length_filterMap_of_isSome _ _ hsome, List.filter_filter]
  apply congrArg List.length
  apply List.filter_congr
  intro x hx
  obtain ⟨t, _, rfl⟩ := List.mem_map.mp hx
  by_cases hxe : (jsTrim t == "") = true
  · simp [hxe]
  · have hs : (buildRuleFromLine (jsTrim t)).isSome = true := by
      apply buildRuleFromLine_isSome
      rw [jsTrim_idem]
      simpa using hxe
    simp [hxe, hs]

/-- Claim C3: tunnel-mode evaluation (the CONNECT blacklist loop) skips
every rule of kind HostExactPath or HostSubtreePath: removing those
rules from any snapshot never changes the tunnel decision, a snapshot
consisting only of such rules blocks nothing for any host, and rules of
the other two kinds remain eligible in tunnel mode. -/
theorem tunnel_mode_skips_path_rules (rules : List BlacklistRule) (hostLower : String)
    (hall : ∀ r ∈ rules,
      r.kind = RuleKind.hostExactPath ∨ r.kind = RuleKind.hostSubtreePath) :
    connectDecision rules hostLower = none ∧
    (∀ (rules2 : List BlacklistRule) (h2 : String),
      connectDecision rules2 h2 =
        connectDecision (rules2.filter (fun r =>
          !(r.kind == RuleKind.hostExactPath || r.kind == RuleKind.hostSubtreePath))) h2) ∧
    (∀ r : BlacklistRule, r.kind = RuleKind.hostSubstring ∨ r.kind = RuleKind.subdomain →
      eligible Mode.tunnel r = true) := by
  refine ⟨?_, ?_, ?_⟩
  · have hfil : rules.filter (eligible Mode.tunnel) = [] := by
      apply List.filter_eq_nil_iff.mpr
      intro r hr
      simp [eligible_tunnel_false_of_path r (hall r hr)]
    unfold connectDecision
    rw [← evalRules_filter_eligible, hfil]
    rfl
  · intro rules2 h2
    unfold connectDecision
    rw [← evalRules_filter_eligible Mode.tunnel rules2]
    rfl
  · intro r h
    rcases h with h | h <;> simp [eligible, h]

/-- Claim C3, witness: a snapshot holding exactly one HostExactPath rule
(compiled from `example.com/a`) and one HostSubtreePath rule (compiled
from `example.com/b*`) blocks nothing in tunnel mode, here at host
`example.com` (which both rules' host fields equal). -/
theorem tunnel_mode_skips_path_rules_witness :
    connectDecision
      [{ raw := "example.com/a", kind := RuleKind.hostExactPath, host := "example.com",
         path := some "/a",
         test := fun hostLower requestPath =>
           Except.ok (exactTest "example.com" "/a" hostLower requestPath) },
       { raw := "example.com/b*", kind := RuleKind.hostSubtreePath, host := "example.com",
         path := some "/b",
         test := fun hostLower requestPath =>
           Except.ok (subtreeTest "example.com" "/b" hostLower requestPath) }]
      "example.com" = none := by
  refine (tunnel_mode_skips_path_rules _ "example.com" ?_).1
  intro r hr
  simp only [List.mem_cons, List.not_mem_nil, or_false] at hr
  rcases hr with rfl | rfl
  · exact Or.inl rfl
  · exact Or.inr rfl

/-- Claim C4: in every mode the evaluator walks the snapshot in source
order and returns the first eligible rule whose test succeeds (`none`
when no eligible rule matches) — stated as equality with `List.find?`
over the eligible rules; and concretely, for the snapshot
[substring `a`, substring `ab`] and host `abc`, both rules match but the
reported blocking rule is the first one. -/
theorem evaluator_first_match_wins :
    (∀ (m : Mode) (rules : List BlacklistRule) (hostLower pathPart : String),
      evalRules m rules hostLower pathPart =
        (rules.filter (eligible m)).find? (matchesB hostLower pathPart)) ∧
    (∃ r1 r2, buildRuleFromLine "a" = some r1 ∧ buildRuleFromLine "ab" = some r2 ∧
      matchesB "abc" "/" r1 = true ∧ matchesB "abc" "/" r2 = true ∧
      evalRules Mode.http [r1, r2] "abc" "/" = some r1) :=
  ⟨fun m rules hostLower pathPart => evalRules_eq_find m rules hostLower pathPart,
   ⟨_, _, rfl, rfl, rfl, rfl, rfl⟩⟩

/-- Claim C9: a rule whose `test` throws (modelled as `Except.error`) is
treated as non-matching for that rule only: in every mode and for every
host, path and surrounding snapshot, the decision with the faulting rule
present equals the decision with it removed, so evaluation continues
with the subsequent rules and the fault never fails the whole
decision. -/
theorem faulting_rule_treated_as_nonmatching (m : Mode) (r : BlacklistRule)
    (pre post : List BlacklistRule) (hostLower pathPart msg : String)
    (hfault : r.test hostLower pathPart = Except.error msg) :
    evalRules m (pre ++ r :: post) hostLower pathPart =
      evalRules m (pre ++ post) hostLower pathPart :=
  evalRules_error_skip m r pre post hostLower pathPart msg hfault

/-- Claim C9, witness: a rule whose test always throws `TypeError`,
placed in front of a substring rule compiled from `evil`, does not
prevent that later rule from blocking host `evil.com` in HTTP mode. -/
theorem faulting_rule_treated_as_nonmatching_witness :
    (∃ r2, buildRuleFromLine "evil" = some r2 ∧
      evalRules Mode.http
        ([] ++ ({ raw := "boom", kind := RuleKind.hostSubstring, host := "boom",
                  test := fun _ _ => Except.error "TypeError" } : BlacklistRule) :: [r2])
        "evil.com" "/" = some r2) := by
  refine ⟨_, rfl, ?_⟩
  rw [faulting_rule_treated_as_nonmatching Mode.http _ [] _ "evil.com" "/" "TypeError" rfl]
  rfl

/-- Claim C7: the rule compiled from `host/path` is a HostExactPath rule
with host `host` and path `/path`; it matches exactly when the request
host equals the rule's host and the request path equals the rule's path
exactly — `/path/2` and a different host do not match. -/
theorem exact_rule_matches_exact_host_and_path :
    ∃ r, buildRuleFromLine "host/path" = some r ∧
      r.kind = RuleKind.hostExactPath ∧ r.host = "host" ∧ r.path = some "/path" ∧
      (∀ hostLower requestPath, r.test hostLower requestPath =
        Except.ok (hostLower == "host" && requestPath == "/path")) ∧
      r.test "host" "/path" = Except.ok true ∧
      r.test "host" "/path/2" = Except.ok false ∧
      r.test "otherhost" "/path" = Except.ok false :=
  ⟨_, rfl, rfl, rfl, rfl, fun _ _ => rfl, rfl, rfl, rfl⟩

/-- Claim C10: HTTP-mode matching runs against the lowercased raw Host
header, which may keep a `:port` suffix. For every header of the form
`hn:port` (`port` a digit string) and every rule host written without a
colon, the subdomain, host-exact-path and host-subtree-path tests are
all false (their host equality / dotted-suffix checks fail against the
`host:port` string) — shown both for the test closures in general and
for compiled rules at ported headers — while a HostSubstring rule can
still match such a header (blocking it through the middleware). -/
theorem http_port_header_defeats_host_rules
    (host hn port pathPart requestPath : String)
    (_hport : port.data ≠ [])
    (hdigit : ∀ c ∈ port.data, c.isDigit = true)
    (hcolon : ':' ∉ host.data) :
    subdomainTest host (hn ++ ":" ++ port) = false ∧
    exactTest host pathPart (hn ++ ":" ++ port) requestPath = false ∧
    subtreeTest host pathPart (hn ++ ":" ++ port) requestPath = false ∧
    (∃ r, buildRuleFromLine "*.example.com" = some r ∧
      accessControl [r] "a.example.com:8080" "/x"
        = HttpOutcome.forward "a.example.com:8080" "a.example.com:8080") ∧
    (∃ r, buildRuleFromLine "example.com/x" = some r ∧
      accessControl [r] "example.com:8080" "/x"
        = HttpOutcome.forward "example.com:8080" "example.com:8080") ∧
    (∃ r, buildRuleFromLine "example.com/x*" = some r ∧
      accessControl [r] "example.com:8080" "/x"
        = HttpOutcome.forward "example.com:8080" "example.com:8080") ∧
    (∃ r, buildRuleFromLine "example.com" = some r ∧
      accessControl [r] "EXAMPLE.COM:8080" "/x" = HttpOutcome.blocked r) := by
  have hne := header_with_port_ne_host host hn port hcolon
  refine ⟨?_, ?_, ?_, ⟨_, rfl, rfl⟩, ⟨_, rfl, rfl⟩, ⟨_, rfl, rfl⟩, ⟨_, rfl, rfl⟩⟩
  · unfold subdomainTest
    rw [if_neg (by simp [hne])]
    exact subdomain_endsWith_port_false host hn port hdigit hcolon
  · unfold exactTest
    rw [hne, Bool.false_and]
  · unfold subtreeTest
    rw [hne, Bool.false_and]

/-- Claim C10, witness: with bare rule host `example.com` and the ported
header `a.example.com:8080` (digit port `8080`), the subdomain test is
false, and with header `example.com:8080` the exact-path test is false. -/
theorem http_port_header_defeats_host_rules_witness :
    ("8080" : String).data ≠ [] ∧ (∀ c ∈ ("8080" : String).data, c.isDigit = true) ∧
    ':' ∉ ("example.com" : String).data ∧
    subdomainTest "example.com" ("a.example.com" ++ ":" ++ "8080") = false ∧
    exactTest "example.com" "/x" ("example.com" ++ ":" ++ "8080") "/x" = false := by
  refine ⟨by decide, by decide, by decide, ?_, ?_⟩
  · exact (http_port_header_defeats_host_rules "example.com" "a.example.com" "8080"
      "/x" "/x" (by decide) (by decide) (by decide)).1
  · exact (http_port_header_defeats_host_rules "example.com" "example.com" "8080"
      "/x" "/x" (by decide) (by decide) (by decide)).2.1

end MyProxy
